import Mathlib

/-!
# Verification of the autogc_validation QC screening core

This file gives a shallow embedding, in Lean 4, of the QC screening and
failure-interval engine of the autogc_validation repository:

* `src/autogc_validation/qc/blanks.py` (function `compounds_above_mdl`),
* `src/autogc_validation/qc/recovery.py` (function `check_qc_recovery`),
* `src/autogc_validation/qc/screening.py` (functions `check_ratios` and
  `check_overrange_values`),
* `src/autogc_validation/qc/mdvr.py` (functions `compute_failure_intervals`
  and `_shift_and_combine`).

Modelling conventions:

* Timestamps are integers (pandas datetime64 values are 64-bit integer
  nanosecond counts; only their ordering and equality matter here).
* Measured concentrations are `Option Rat`: `none` models a missing cell
  (NaN, or a value that `pd.to_numeric(..., errors="coerce")` turned into
  NaN).  Every pandas comparison with NaN is False, which the `Option`
  matches below reproduce.
* A DataFrame is a list of integer compound columns plus a list of rows;
  a row carries its index timestamp, its `sample_type` string, its
  `filename`, and a total function from column code to `Option Rat`.
* Fallible pandas operations are embedded with `Except String`; in
  particular `pd.DataFrame(results).set_index("date_time")` raises
  `KeyError` when `results` is the empty list (the empty DataFrame has no
  columns), and the recovery comprehension raises `ZeroDivisionError` on
  a zero expected denominator (`iterrows` boxes the float64 cells of the
  mixed-dtype row into built-in Python floats, and only the denominator
  is `float()`-wrapped); the embedding reproduces both.
-/

namespace AutogcValidation

/-! ## Compound code vocabulary

`PLOT_UNID_CODE`, `BP_UNID_CODE`, `UNID_CODES` and `TOTAL_CODES` are from
`src/autogc_validation/database/enums/__init__.py`.  The enum source file
holding the numeric values of `CompoundAQSCode.C_TNMHC` and `C_TNMTC` is
absent from the source tree (only its importers are present), so the two
total codes are modelled from the spec as two fixed stand-in integers
distinct from every real AQS code appearing in `VOC_DATA`
(`src/autogc_validation/database/VOCdb.py`); nothing below depends on
their concrete values, only on membership in `TOTAL_CODES`. -/

def PLOT_UNID_CODE : Int := 10000

def BP_UNID_CODE : Int := 20000

def UNID_CODES : List Int := [PLOT_UNID_CODE, BP_UNID_CODE]

/-- Modelled from the spec: the numeric values of the two total codes
(`CompoundAQSCode.C_TNMHC`) are not in src; 43102 is a stand-in. -/
def C_TNMHC : Int := 43102

/-- Modelled from the spec: the numeric values of the two total codes
(`CompoundAQSCode.C_TNMTC`) are not in src; 43104 is a stand-in. -/
def C_TNMTC : Int := 43104

def TOTAL_CODES : List Int := [C_TNMHC, C_TNMTC]

/-- AQS codes of compounds used by the ratio battery, from `VOC_DATA` in
`src/autogc_validation/database/VOCdb.py`. -/
def C_ETHANE : Int := 43202

def C_ETHYLENE : Int := 43203

def C_PROPANE : Int := 43204

def C_PROPYLENE : Int := 43205

def C_ISO_BUTANE : Int := 43214

def C_N_BUTANE : Int := 43212

def C_CYCLOPENTANE : Int := 43242

def C_ISO_PENTANE : Int := 43221

def C_N_PENTANE : Int := 43220

def C_2_METHYLPENTANE : Int := 43285

def C_3_METHYLPENTANE : Int := 43230

def C_METHYLCYCLOPENTANE : Int := 43262

def C_2_4_DIMETHYLPENTANE : Int := 43247

def C_BENZENE : Int := 45201

def C_2_METHYLHEXANE : Int := 43263

def C_2_3_DIMETHYLPENTANE : Int := 43291

def C_TOLUENE : Int := 45202

def C_M_P_XYLENE : Int := 45109

def C_O_XYLENE : Int := 45204

def C_N_DECANE : Int := 43238

def C_N_UNDECANE : Int := 43954

/-- Alkane AQS codes, in `VOC_DATA` order, as returned by
`get_codes_by_category(VOCCategory.ALKANE)`. -/
def alkaneCodes : List Int :=
  [43202, 43204, 43214, 43212, 43242, 43221, 43220, 43244, 43284, 43285,
   43230, 43231, 43262, 43247, 43248, 43263, 43291, 43249, 43250, 43232,
   43261, 43252, 43960, 43253, 43233, 43235, 43238, 43954, 43141]

/-- Alkene AQS codes, in `VOC_DATA` order, as returned by
`get_codes_by_category(VOCCategory.ALKENE)`. -/
def alkeneCodes : List Int :=
  [43203, 43205, 43216, 43280, 43217, 43218, 43226, 43224, 43227, 43246,
   43245]

/-! ## The measurement table -/

/-- One row of `Dataset.data`: index timestamp, `sample_type` column,
`filename` column, and the numeric compound columns as a function from
AQS code to an optional rational (`none` = NaN). -/
structure SampleRow where
  time : Int
  sampleType : String
  filename : String
  values : Int → Option Rat

/-- A `Dataset.data` DataFrame: the list of integer compound columns it
carries, plus its rows.  (String-named columns such as `sample_type` and
`filename` are explicit fields of `SampleRow`; the Python screens filter
`data.columns` with `isinstance(c, int)`, so `cols` here lists exactly
those integer columns.) -/
structure DataTable where
  cols : List Int
  rows : List SampleRow

/-- Ordering used to embed `DataFrame.sort_index()`. -/
def rowLE (a b : SampleRow) : Prop := a.time ≤ b.time

instance : DecidableRel rowLE := fun a b => Int.decLe a.time b.time

instance : IsTotal SampleRow rowLE := ⟨fun a b => Int.le_total a.time b.time⟩

instance : IsTrans SampleRow rowLE :=
  ⟨fun _ _ _ hab hbc => Int.le_trans hab hbc⟩

/-- Embeds `df.sort_index()` on rows (stable sort by index timestamp). -/
def sortRowsByTime (rs : List SampleRow) : List SampleRow :=
  rs.insertionSort rowLE

/-- Embeds the screens computing
`[c for c in data.columns if isinstance(c, int) and c not in UNID_CODES | TOTAL_CODES]`
(identical in `blanks.compounds_above_mdl` and `recovery.check_qc_recovery`). -/
def compoundColumns (cols : List Int) : List Int :=
  cols.filter (fun c => !(UNID_CODES.contains c || TOTAL_CODES.contains c))

/-- One entry of a long-form flag list: either a violating AQS code or the
sentinel string `"__NONE__"`. -/
inductive FlagItem where
  | aqs (code : Int)
  | sentinel
deriving DecidableEq

/-! ## BlankScreen: qc/blanks.py -/

/-- Embeds the per-row comprehension of `compounds_above_mdl`:
`[code for code in compound_columns if code in mdl_series.index and pd.notna(row[code]) and row[code] > mdl_series[code]]`.
The `mdls` argument models the AQS-indexed MDL series after
`to_aqs_indexed_series` (name keys already normalised to codes, NaN
entries dropped): `none` = code absent from the series index. -/
def aboveCodesForRow (ccols : List Int) (mdls : Int → Option Rat)
    (row : SampleRow) : List Int :=
  ccols.filter (fun c =>
    match mdls c, row.values c with
    | some m, some v => decide (v > m)
    | _, _ => false)

/-- One output row of `compounds_above_mdl`. -/
structure BlankResultRow where
  time : Int
  filename : String
  above : List FlagItem
deriving DecidableEq

/-- Builds one result record of `compounds_above_mdl`, including the
`["__NONE__"]` sentinel substitution. -/
def blankRowResult (ccols : List Int) (mdls : Int → Option Rat)
    (row : SampleRow) : BlankResultRow :=
  let a := aboveCodesForRow ccols mdls row
  ⟨row.time, row.filename,
    if a.isEmpty then [FlagItem.sentinel] else a.map FlagItem.aqs⟩

/-- Embeds `data[data["sample_type"] == SampleType.BLANK].sort_index()`
(`SampleType.BLANK` is the string `"b"`). -/
def blankRows (t : DataTable) : List SampleRow :=
  sortRowsByTime (t.rows.filter (fun r => r.sampleType == "b"))

/-- Embeds `compounds_above_mdl(data, mdls)`.  The final
`pd.DataFrame(results).set_index("date_time")` raises `KeyError` when
`results` is empty, because the DataFrame built from an empty list has no
`date_time` column; that failure path is embedded as `Except.error`. -/
def compoundsAboveMdl (t : DataTable) (mdls : Int → Option Rat) :
    Except String (List BlankResultRow) :=
  let res := (blankRows t).map (blankRowResult (compoundColumns t.cols) mdls)
  if res.isEmpty then
    Except.error "KeyError: none of [date_time] are in the columns"
  else
    Except.ok res

/-! ## RecoveryScreen: qc/recovery.py -/

def RECOVERY_LOWER_BOUND : Rat := 7/10

def RECOVERY_UPPER_BOUND : Rat := 13/10

/-- Embeds the window test
`row[code] / float(expected[code]) > RECOVERY_UPPER_BOUND or row[code] / float(expected[code]) < RECOVERY_LOWER_BOUND`
for a nonzero denominator.  A zero denominator never reaches this test:
`iterrows` materialises the mixed-dtype row through an object array,
which boxes the float64 cells into built-in Python floats, and only the
denominator is `float()`-wrapped, so Python-float division by `0.0`
raises `ZeroDivisionError` (see `rowHitsZeroExpected` below). -/
def recoveryFails (v e : Rat) : Bool :=
  decide (v / e > RECOVERY_UPPER_BOUND) || decide (v / e < RECOVERY_LOWER_BOUND)

/-- Embeds `_to_aqs_indexed_series(canister_conc) * blend_ratio`: the
expected series maps each code with a defined canister concentration to
that concentration times the blend ratio. -/
def expectedSeries (conc : Int → Option Rat) (blendRatio : Rat) :
    Int → Option Rat :=
  fun c => (conc c).map (fun x => x * blendRatio)

/-- True exactly when the per-row comprehension of `check_qc_recovery`
raises `ZeroDivisionError`: some evaluated code (defined expected value
and present measured value) has a zero expected denominator.  The
comprehension evaluates codes left to right and raises at the first such
code, but the surfaced error does not depend on which code raised, so
the embedding tests the condition once over the whole row. -/
def rowHitsZeroExpected (ccols : List Int) (expected : Int → Option Rat)
    (row : SampleRow) : Bool :=
  ccols.any (fun c =>
    match expected c, row.values c with
    | some e, some _ => decide (e = 0)
    | _, _ => false)

/-- Embeds the per-row comprehension of `check_qc_recovery`:
`[code for code in compound_columns if code in expected.index and pd.notna(row[code]) and (ratio > upper or ratio < lower)]`.
The division raises `ZeroDivisionError` when it reaches a code with a
present measured value and zero expected value (embedded as
`Except.error`); otherwise the comprehension returns the codes whose
recovery ratio falls outside the window. -/
def failingCodesForRow (ccols : List Int) (expected : Int → Option Rat)
    (row : SampleRow) : Except String (List Int) :=
  if rowHitsZeroExpected ccols expected row then
    Except.error "ZeroDivisionError: float division by zero"
  else
    Except.ok (ccols.filter (fun c =>
      match expected c, row.values c with
      | some e, some v => recoveryFails v e
      | _, _ => false))

/-- One output row of `check_qc_recovery`. -/
structure QcResultRow where
  time : Int
  failingQc : List FlagItem
deriving DecidableEq

/-- Builds one result record of `check_qc_recovery`, including the
`["__NONE__"]` sentinel substitution; a `ZeroDivisionError` raised by
the comprehension propagates. -/
def qcRowResult (ccols : List Int) (expected : Int → Option Rat)
    (row : SampleRow) : Except String QcResultRow :=
  match failingCodesForRow ccols expected row with
  | Except.error msg => Except.error msg
  | Except.ok f =>
      Except.ok ⟨row.time,
        if f.isEmpty then [FlagItem.sentinel] else f.map FlagItem.aqs⟩

/-- Runs the result-building loop of `check_qc_recovery` over the sorted
QC rows, stopping at the first row whose comprehension raises. -/
def qcRowResults (ccols : List Int) (expected : Int → Option Rat) :
    List SampleRow → Except String (List QcResultRow)
  | [] => Except.ok []
  | r :: rs =>
    match qcRowResult ccols expected r with
    | Except.error msg => Except.error msg
    | Except.ok q =>
      match qcRowResults ccols expected rs with
      | Except.error msg => Except.error msg
      | Except.ok qs => Except.ok (q :: qs)

/-- Embeds `check_qc_recovery(data, qc_type, canister_conc, blend_ratio)`.
Raising `ValueError` for a bad `qc_type`, the `ZeroDivisionError` from a
zero expected denominator, and the `KeyError` from `set_index` on an
empty result list, are embedded as `Except.error`. -/
def checkQcRecovery (t : DataTable) (qcType : String)
    (conc : Int → Option Rat) (blendRatio : Rat) :
    Except String (List QcResultRow) :=
  if qcType ≠ "c" ∧ qcType ≠ "e" ∧ qcType ≠ "q" then
    Except.error "ValueError: qc_type must be c, e, or q"
  else
    match qcRowResults (compoundColumns t.cols) (expectedSeries conc blendRatio)
        (sortRowsByTime (t.rows.filter (fun r => r.sampleType == qcType))) with
    | Except.error msg => Except.error msg
    | Except.ok res =>
      if res.isEmpty then
        Except.error "KeyError: none of [date_time] are in the columns"
      else
        Except.ok res

/-! ## Name and code lookup: database/enums and VOCdb.py

The association list reproduces the `compound` / `aqs_code` pairs of
`VOC_DATA` in `src/autogc_validation/database/VOCdb.py`, in file order,
plus the two total codes (whose enum source file is absent from src; the
names `TNMHC` and `TNMTC` and their membership are modelled from the
spec).  `name_to_aqs` raises for an unknown name and `aqs_to_name` raises
for an unknown code; both are embedded as `Option`-returning lookups and
the raise is reintroduced at each use site. -/

def VOC_NAME_CODES : List (String × Int) :=
  [("Ethane", 43202), ("Ethylene", 43203), ("Propane", 43204),
   ("Propylene", 43205), ("Iso-butane", 43214), ("N-butane", 43212),
   ("Acetylene", 43206), ("Trans-2-butene", 43216), ("1-butene", 43280),
   ("Cis-2-butene", 43217), ("Cyclopentane", 43242), ("Iso-pentane", 43221),
   ("N-pentane", 43220), ("1,3-butadiene", 43218), ("Trans-2-pentene", 43226),
   ("1-pentene", 43224), ("Cis-2-pentene", 43227),
   ("2,2-dimethylbutane", 43244), ("2,3-dimethylbutane", 43284),
   ("2-methylpentane", 43285), ("3-methylpentane", 43230),
   ("Isoprene", 43243), ("2-methyl-1-pentene", 43246), ("1-hexene", 43245),
   ("N-hexane", 43231), ("Methylcyclopentane", 43262),
   ("2,4-dimethylpentane", 43247), ("Benzene", 45201), ("Cyclohexane", 43248),
   ("2-methylhexane", 43263), ("2,3-dimethylpentane", 43291),
   ("3-methylhexane", 43249), ("2,2,4-trimethylpentane", 43250),
   ("N-heptane", 43232), ("Methylcyclohexane", 43261),
   ("2,3,4-trimethylpentane", 43252), ("Toluene", 45202),
   ("2-methylheptane", 43960), ("3-methylheptane", 43253),
   ("N-octane", 43233), ("Ethylbenzene", 45203), ("M&p-xylene", 45109),
   ("Styrene", 45220), ("O-xylene", 45204), ("N-nonane", 43235),
   ("Iso-propylbenzene", 45210), ("Alpha-pinene", 43256),
   ("N-propylbenzene", 45209), ("M-ethyltoluene", 45212),
   ("P-ethyltoluene", 45213), ("1,3,5-tri-m-benzene", 45207),
   ("O-ethyltoluene", 45211), ("Beta-pinene", 43257),
   ("1,2,4-tri-m-benzene", 45208), ("N-decane", 43238),
   ("1,2,3-tri-m-benzene", 45225), ("M-diethylbenzene", 45218),
   ("P-diethylbenzene", 45219), ("N-undecane", 43954),
   ("N-dodecane", 43141), ("TNMHC", 43102), ("TNMTC", 43104)]

/-- Embeds `name_to_aqs`: `none` models the `KeyError` / `ValueError`
raised for an unrecognised compound name. -/
def nameToAqs (n : String) : Option Int :=
  (VOC_NAME_CODES.find? (fun p => p.1 == n)).map (fun p => p.2)

/-- Embeds `aqs_to_name`: `none` models the `ValueError` raised for an
unrecognised AQS code. -/
def aqsToName (c : Int) : Option String :=
  (VOC_NAME_CODES.find? (fun p => p.2 == c)).map (fun p => p.1)

/-! ## AmbientScreen: qc/screening.py -/

/-- Pandas semantics for a strict comparison between two possibly-NaN
cells: any comparison with NaN is False. -/
def oGT (x y : Option Rat) : Bool :=
  match x, y with
  | some a, some b => decide (a > b)
  | _, _ => false

/-- Embeds the noise gate `a[C] > 3 * m[C]` appearing in each ratio
condition.  The source indexes `mdl_series[C]` directly and would raise
`KeyError` for a compound without an MDL, so the embedding takes the MDL
series as a total function. -/
def mdlGate (a : Int → Option Rat) (m : Int → Rat) (c : Int) : Bool :=
  oGT (a c) (some (3 * m c))

/-- Embeds `a[codes].sum(axis=1)`: pandas sums skip NaN (an all-NaN row
sums to 0). -/
def sumSkipNa (codes : List Int) (a : Int → Option Rat) : Rat :=
  (codes.map (fun c => (a c).getD 0)).sum

/-- The fixed condition battery of `check_ratios`, in source order: each
entry is the `screen_reason` label together with the row predicate built
from the inline boolean expression.  Float literals (`0.6`) are embedded
as the exact rationals they denote in the source text. -/
def ratioConditions :
    List (String × ((Int → Option Rat) → (Int → Rat) → Bool)) :=
  [("benzene_gt_toluene", fun a m =>
      oGT ((a C_BENZENE).map (fun x => x/6)) ((a C_TOLUENE).map (fun x => x/7))
        && mdlGate a m C_BENZENE),
   ("benzene_gt_ethane", fun a m =>
      oGT ((a C_BENZENE).map (fun x => x/6)) ((a C_ETHANE).map (fun x => x/2))
        && mdlGate a m C_BENZENE),
   ("ethylene_gt_ethane", fun a m =>
      oGT ((a C_ETHYLENE).map (fun x => x/2)) ((a C_ETHANE).map (fun x => x/2))
        && mdlGate a m C_ETHYLENE),
   ("propylene_gt_propane", fun a m =>
      oGT ((a C_PROPYLENE).map (fun x => x/3)) ((a C_PROPANE).map (fun x => x/3))
        && mdlGate a m C_PROPYLENE),
   ("oxylene_gt_mpxylene", fun a m =>
      oGT ((a C_O_XYLENE).map (fun x => x/8)) ((a C_M_P_XYLENE).map (fun x => x/8))
        && mdlGate a m C_O_XYLENE),
   ("23dimethylpentane_gt_2methylhexane", fun a m =>
      oGT (a C_2_3_DIMETHYLPENTANE) (a C_2_METHYLHEXANE)
        && mdlGate a m C_2_3_DIMETHYLPENTANE),
   ("24dimethylpentane_gt_methylcyclopentane", fun a m =>
      oGT (a C_2_4_DIMETHYLPENTANE) (a C_METHYLCYCLOPENTANE)
        && mdlGate a m C_2_4_DIMETHYLPENTANE),
   ("isobutane_gt_nbutane", fun a m =>
      oGT (a C_ISO_BUTANE) (a C_N_BUTANE) && mdlGate a m C_ISO_BUTANE),
   ("3methylpentane_gt_2methylpentane", fun a m =>
      oGT ((a C_3_METHYLPENTANE).map (fun x => x/6))
          ((a C_2_METHYLPENTANE).map (fun x => (6/10) * x / 6))
        && mdlGate a m C_3_METHYLPENTANE),
   ("nundecane_gt_ndecane", fun a m =>
      oGT ((a C_N_UNDECANE).map (fun x => x/11)) ((a C_N_DECANE).map (fun x => x/10))
        && mdlGate a m C_N_UNDECANE),
   ("not_isopentane_gt_npentane_gt_cyclopentane", fun a m =>
      (!(oGT (a C_ISO_PENTANE) (a C_N_PENTANE)
          && oGT (a C_N_PENTANE) (a C_CYCLOPENTANE)))
        && mdlGate a m C_ISO_PENTANE && mdlGate a m C_N_PENTANE
        && mdlGate a m C_CYCLOPENTANE),
   ("alkenes_gt_alkanes", fun a _ =>
      decide (sumSkipNa alkeneCodes a > sumSkipNa alkaneCodes a))]

/-- The labels, in `check_ratios` output order, under which one ambient
row is emitted: exactly the conditions whose mask is True at that row. -/
def checkRatiosRow (a : Int → Option Rat) (m : Int → Rat) : List String :=
  (ratioConditions.filter (fun p => p.2 a m)).map (fun p => p.1)

/-- Embeds `check_ratios` at the table level: per condition (in battery
order, matching the `pd.concat` of per-condition subsets), the ambient
rows matched, emitted as (timestamp, screen_reason) pairs. -/
def checkRatios (t : DataTable) (m : Int → Rat) : List (Int × String) :=
  let ambient := sortRowsByTime (t.rows.filter (fun r => r.sampleType == "s"))
  ratioConditions.flatMap (fun p =>
    ambient.filterMap (fun r =>
      if p.2 r.values m then some (r.time, p.1) else none))

/-- For each gated condition label, the compound whose `> 3 * MDL` gate
guards it (the primary compound of the comparison); `none` for the
alkene-sum condition, which the source does not gate. -/
def gatePrimary : String → Option Int
  | "benzene_gt_toluene" => some C_BENZENE
  | "benzene_gt_ethane" => some C_BENZENE
  | "ethylene_gt_ethane" => some C_ETHYLENE
  | "propylene_gt_propane" => some C_PROPYLENE
  | "oxylene_gt_mpxylene" => some C_O_XYLENE
  | "23dimethylpentane_gt_2methylhexane" => some C_2_3_DIMETHYLPENTANE
  | "24dimethylpentane_gt_methylcyclopentane" => some C_2_4_DIMETHYLPENTANE
  | "isobutane_gt_nbutane" => some C_ISO_BUTANE
  | "3methylpentane_gt_2methylpentane" => some C_3_METHYLPENTANE
  | "nundecane_gt_ndecane" => some C_N_UNDECANE
  | "not_isopentane_gt_npentane_gt_cyclopentane" => some C_ISO_PENTANE
  | _ => none

/-- One output row of `check_overrange_values` (index timestamp, compound
code, value, display name). -/
structure OverrangeRow where
  time : Int
  compound : Int
  value : Option Rat
  compoundName : String
deriving DecidableEq

/-- Embeds `check_overrange_values(data, upper_cal_point, exclude_compounds)`:
resolve the exclusion names (unknown names are skipped with a warning),
restrict to ambient rows, melt the integer compound columns to long form
(column-major, preserving the index), keep the rows whose value strictly
exceeds the bound and whose compound is not excluded, and decorate each
kept row with `aqs_to_name` (which raises for an unknown code, embedded
as `Except.error`). -/
def checkOverrangeValues (t : DataTable) (upperCalPoint : Rat)
    (excludeCompounds : List String) : Except String (List OverrangeRow) :=
  let excludeCodes := excludeCompounds.filterMap nameToAqs
  let ambient := t.rows.filter (fun r => r.sampleType == "s")
  let long := t.cols.flatMap (fun c => ambient.map (fun r => (r.time, c, r.values c)))
  let exceed := long.filter (fun p =>
    match p.2.2 with
    | some x => decide (x > upperCalPoint) && !(excludeCodes.contains p.2.1)
    | none => false)
  if exceed.all (fun p => (aqsToName p.2.1).isSome) then
    Except.ok (exceed.map (fun p => ⟨p.1, p.2.1, p.2.2, (aqsToName p.2.1).getD ""⟩))
  else
    Except.error "ValueError: unknown AQS code"

/-- Default exclusion set of `check_overrange_values`. -/
def defaultExcludeCompounds : List String := ["TNMTC", "TNMHC"]

/-! ## IntervalMerger: qc/mdvr.py, compute_failure_intervals

A failure series is a list of (timestamp, fails) pairs: `true` embeds the
value 1 (fail) and `false` the value 0 (pass), matching the binary series
taken from a wide-form failure matrix.  `lo` and `hi` are the global
bounds `all_data.index.min()` and `all_data.index.max()`. -/

/-- Ordering used to embed `failure_series.sort_index()`. -/
def obsLE (a b : Int × Bool) : Prop := a.1 ≤ b.1

instance : DecidableRel obsLE := fun a b => Int.decLe a.1 b.1

instance : IsTotal (Int × Bool) obsLE := ⟨fun a b => Int.le_total a.1 b.1⟩

instance : IsTrans (Int × Bool) obsLE := ⟨fun _ _ _ h h2 => Int.le_trans h h2⟩

/-- Stable sort of the failure series by timestamp. -/
def sortObsByTime (s : List (Int × Bool)) : List (Int × Bool) :=
  s.insertionSort obsLE

/-- Embeds the backward fill `pass_idx.bfill().fillna(upper_bound)` read
at one failing position: the timestamp of the nearest following passing
observation, defaulting to `hi`. -/
def nextPassTime (hi : Int) : List (Int × Bool) → Int
  | [] => hi
  | (t, false) :: _ => t
  | (_, true) :: rest => nextPassTime hi rest

/-- Embeds the forward fill `pass_idx.ffill().fillna(lower_bound)` paired
with the backward fill, read at every failing position of the sorted
series: the accumulator `last` is the most recent passing timestamp seen
so far (initially `lo`).  Produces the Nx2 array
`np.column_stack([lb, rb])` of raw intervals in series order. -/
def rawIntervalsGo (hi : Int) : Int → List (Int × Bool) → List (Int × Int)
  | _, [] => []
  | _, (t, false) :: rest => rawIntervalsGo hi t rest
  | last, (_, true) :: rest =>
      (last, nextPassTime hi rest) :: rawIntervalsGo hi last rest

/-- Raw per-failure intervals of a sorted series. -/
def rawIntervals (lo hi : Int) (s : List (Int × Bool)) : List (Int × Int) :=
  rawIntervalsGo hi lo s

/-- Ordering used to embed `intervals[np.argsort(intervals[:, 0])]`. -/
def intLE (a b : Int × Int) : Prop := a.1 ≤ b.1

instance : DecidableRel intLE := fun a b => Int.decLe a.1 b.1

instance : IsTotal (Int × Int) intLE := ⟨fun a b => Int.le_total a.1 b.1⟩

instance : IsTrans (Int × Int) intLE := ⟨fun _ _ _ h h2 => Int.le_trans h h2⟩

/-- Sort of the raw intervals by left bound. -/
def sortIntervalsByStart (l : List (Int × Int)) : List (Int × Int) :=
  l.insertionSort intLE

/-- Embeds the numpy merge sweep on the left-bound-sorted interval list:
`new_interval_mask = np.r_[True, lb[1:] > np.maximum.accumulate(rb[:-1])]`
followed by `minimum.reduceat` / `maximum.reduceat` per group.  `s` and
`e` are the start and running maximal end of the currently open group: a
later interval opens a new group exactly when its left bound strictly
exceeds the running maximal end of everything before it (for a
left-bound-sorted list that running maximum reduces to `e`). -/
def mergeGo : Int → Int → List (Int × Int) → List (Int × Int)
  | s, e, [] => [(s, e)]
  | s, e, (l, r) :: rest =>
      if e < l then (s, e) :: mergeGo l r rest
      else mergeGo s (max e r) rest

/-- Merge of a left-bound-sorted interval list. -/
def mergeIntervals : List (Int × Int) → List (Int × Int)
  | [] => []
  | (l, r) :: rest => mergeGo l r rest

/-- Embeds `compute_failure_intervals(all_data, failure_series)` with the
global dataset bounds `lo = all_data.index.min()` and
`hi = all_data.index.max()` passed explicitly: sort the series, return
the empty interval set when no value is 1, otherwise build the raw
per-failure intervals, sort them by left bound and merge overlaps. -/
def computeFailureIntervals (lo hi : Int) (s : List (Int × Bool)) :
    List (Int × Int) :=
  let sorted := sortObsByTime s
  if sorted.any (fun p => p.2) then
    mergeIntervals (sortIntervalsByStart (rawIntervals lo hi sorted))
  else
    []

/-! ## QualifierBuilder: qc/mdvr.py, _shift_and_combine

A qualifier record carries the four string columns startdate, starthour,
enddate, endhour produced by `strftime("%m/%d/%Y")` and
`strftime("%H:00")`.  At hour resolution that four-tuple of strings is in
bijection with the pair of parsed datetimes
(`pd.to_datetime(startdate + " " + starthour)`,
`pd.to_datetime(enddate + " " + endhour)`), so the embedding carries the
two datetimes directly, measured in hours; grouping on the string
four-tuple is grouping on that pair, and the final strftime round trip is
the identity on hour-valued datetimes. -/

/-- One qualifier line (Parameter(s), reason text, regulatory code,
start/end datetimes in hours; the literal separator column and the
justification column ride along unchanged in the source). -/
structure QualLine where
  param : String
  reason : String
  qcode : String
  startT : Int
  endT : Int
deriving DecidableEq

/-- The distinct (startdate, starthour, enddate, endhour) group keys of a
record list, in first-occurrence order.  (Pandas `groupby` emits groups
in sorted key order; the claims checked below are order-agnostic, and
within one group pandas preserves input order, as this does.) -/
def qualKeys (rows : List QualLine) : List (Int × Int) :=
  rows.foldl
    (fun acc r =>
      if (r.startT, r.endT) ∈ acc then acc else acc ++ [(r.startT, r.endT)])
    []

/-- Embeds `_shift_and_combine(df)`: group by the four time-string
columns, aggregate Parameter(s) with `", ".join` and the remaining
columns with `first`, then shift every start forward one hour and every
end backward one hour and reformat. -/
def shiftAndCombine (rows : List QualLine) : List QualLine :=
  (qualKeys rows).map (fun k =>
    let grp := rows.filter (fun r => decide ((r.startT, r.endT) = k))
    ⟨String.intercalate ", " (grp.map (fun r => r.param)),
     ((grp.head?).map (fun r => r.reason)).getD "",
     ((grp.head?).map (fun r => r.qcode)).getD "",
     k.1 + 1, k.2 - 1⟩)

/-! ## Spec-side description of the raw interval bounds

The following definitions restate, for comparison with `rawIntervals`,
the wording of the spec: the left bound of a failing observation is the
timestamp of the most recent prior passing observation in the (sorted)
series, defaulting to the dataset minimum, and the right bound is the
timestamp of the nearest following passing observation, defaulting to
the dataset maximum. -/

/-- Spec wording: the most recent passing timestamp in `l` (the last pass
of the prefix preceding a failure), defaulting to `lo`. -/
def lastPassTimeSpec (lo : Int) (l : List (Int × Bool)) : Int :=
  (((l.filter (fun p => !p.2)).getLast?).map (fun p => p.1)).getD lo

/-- Spec wording: the nearest following passing timestamp in `l` (the
first pass of the suffix following a failure), defaulting to `hi`. -/
def nextPassTimeSpec (hi : Int) (l : List (Int × Bool)) : Int :=
  ((l.find? (fun p => !p.2)).map (fun p => p.1)).getD hi

/-- Spec wording for the whole raw interval list: one interval per
failing position `i` of the series, bounded by the most recent prior
pass (or `lo`) on the left and the nearest following pass (or `hi`) on
the right. -/
def specRawIntervals (lo hi : Int) (l : List (Int × Bool)) :
    List (Int × Int) :=
  (List.range l.length).filterMap (fun i =>
    match l[i]? with
    | some (_, true) =>
        some (lastPassTimeSpec lo (l.take i), nextPassTimeSpec hi (l.drop (i + 1)))
    | _ => none)

/-! ## Concrete fixtures used by witnesses and counterexamples -/

/-- MDL mapping defining a threshold only for the TNMHC total code. -/
def mdlsTotalOnly : Int → Option Rat := fun c => if c = 43102 then some 50 else none

/-- A blank row whose only measured compound is the TNMHC total, at 100. -/
def rowBlankTotal : SampleRow := ⟨0, "b", "blank.cdf", fun c => if c = 43102 then some 100 else none⟩

/-- A one-row table whose single compound column is the TNMHC total. -/
def tblBlankTotal : DataTable := ⟨[43102], [rowBlankTotal]⟩

/-- An ambient row with no measured values. -/
def rowAmbientNone : SampleRow := ⟨0, "s", "amb.cdf", fun _ => none⟩

/-- A table whose rows contain no blank sample. -/
def tblNoBlank : DataTable := ⟨[45201], [rowAmbientNone]⟩

/-- Canister concentration mapping: Benzene at 10. -/
def concBenzeneTen : Int → Option Rat := fun c => if c = 45201 then some 10 else none

/-- Canister concentration mapping: Benzene certified at 0. -/
def concBenzeneZero : Int → Option Rat := fun c => if c = 45201 then some 0 else none

/-- A CVS row measuring Benzene at 14 (recovery 1.4 against expected 10). -/
def rowCvs14 : SampleRow := ⟨0, "c", "cvs.cdf", fun c => if c = 45201 then some 14 else none⟩

/-- A CVS row measuring Benzene at 5. -/
def rowCvs5 : SampleRow := ⟨0, "c", "cvs.cdf", fun c => if c = 45201 then some 5 else none⟩

/-- A one-row CVS table whose single compound column is Benzene. -/
def tblCvs5 : DataTable := ⟨[45201], [rowCvs5]⟩

/-- An ambient row with Benzene at 50 and TNMHC at 500 (both over 30). -/
def rowOver : SampleRow :=
  ⟨0, "s", "amb.cdf", fun c => if c = 45201 then some 50 else if c = 43102 then some 500 else none⟩

/-- A one-row ambient table with columns Benzene and TNMHC. -/
def tblOver : DataTable := ⟨[45201, 43102], [rowOver]⟩

/-- An ambient row measuring only Ethylene (an alkene) at 1. -/
def rowAlkeneOnly : Int → Option Rat := fun c => if c = 43203 then some 1 else none

/-- MDL series equal to 1 everywhere (so the 3 MDL gate needs a value above 3). -/
def mdlOne : Int → Rat := fun _ => 1

/-- MDL series equal to 0.05 everywhere. -/
def mdlFive : Int → Rat := fun _ => 5/100

/-- Every AQS code read by some condition of the ratio battery. -/
def allBatteryCodes : List Int :=
  alkaneCodes ++ alkeneCodes ++ [C_BENZENE, C_TOLUENE, C_O_XYLENE, C_M_P_XYLENE]

/-- An ambient row with Benzene at 60 and Toluene at 7 (the spec scenario). -/
def rowBenzeneToluene : Int → Option Rat :=
  fun c => if c = 45201 then some 60 else if c = 45202 then some 7 else none

/-- Qualifier line: Benzene over the window 10..20. -/
def qlA : QualLine := ⟨"Benzene", "Blank(s) above respective MDL(s)", "LB", 10, 20⟩

/-- Qualifier line: Toluene over the same window 10..20. -/
def qlB : QualLine := ⟨"Toluene", "Blank(s) above respective MDL(s)", "LB", 10, 20⟩

/-- Qualifier line: Ethane over the window 30..40. -/
def qlC : QualLine := ⟨"Ethane", "Blank(s) above respective MDL(s)", "LB", 30, 40⟩

/-- The failure series of the spec scenario: passes at 1, 5, 9 and 11,
failures at 2, 3, 4 and 10. -/
def seriesScenario : List (Int × Bool) :=
  [(1, false), (2, true), (3, true), (4, true), (5, false), (9, false), (10, true), (11, false)]

/-! ## Helper lemmas -/

/-- Membership characterisation of the blank per-row flag list. -/
theorem mem_aboveCodesForRow (ccols : List Int) (mdls : Int → Option Rat)
    (row : SampleRow) (c : Int) :
    c ∈ aboveCodesForRow ccols mdls row ↔
      c ∈ ccols ∧ ∃ m v, mdls c = some m ∧ row.values c = some v ∧ m < v := by
  unfold aboveCodesForRow
  rw [List.mem_filter]
  constructor
  · rintro ⟨hmem, hp⟩
    refine ⟨hmem, ?_⟩
    rcases hm : mdls c with _ | m <;> rcases hv : row.values c with _ | v <;>
      rw [hm, hv] at hp <;> simp only [decide_eq_true_eq] at hp
    · exact absurd hp (by simp)
    · exact absurd hp (by simp)
    · exact absurd hp (by simp)
    · exact ⟨m, v, rfl, rfl, hp⟩
  · rintro ⟨hmem, m, v, hm, hv, hlt⟩
    refine ⟨hmem, ?_⟩
    rw [hm, hv]
    simpa using hlt

/-- Membership characterisation of a successfully computed recovery
per-row failure list. -/
theorem mem_failingCodesForRow (ccols : List Int) (expected : Int → Option Rat)
    (row : SampleRow) (c : Int) (l : List Int)
    (hok : failingCodesForRow ccols expected row = Except.ok l) :
    c ∈ l ↔
      c ∈ ccols ∧ ∃ e v, expected c = some e ∧ row.values c = some v ∧
        recoveryFails v e = true := by
  rw [failingCodesForRow] at hok
  split at hok
  · exact absurd hok (by simp)
  · rcases Except.ok.inj hok with rfl
    rw [List.mem_filter]
    constructor
    · rintro ⟨hmem, hp⟩
      refine ⟨hmem, ?_⟩
      rcases he : expected c with _ | e <;> rcases hv : row.values c with _ | v <;>
        rw [he, hv] at hp
      · exact absurd hp (by simp)
      · exact absurd hp (by simp)
      · exact absurd hp (by simp)
      · exact ⟨e, v, rfl, rfl, hp⟩
    · rintro ⟨hmem, e, v, he, hv, hf⟩
      refine ⟨hmem, ?_⟩
      rw [he, hv]
      exact hf

/-- A code in `UNID_CODES` or `TOTAL_CODES` is dropped from the evaluated
compound columns of both screens. -/
theorem notMem_compoundColumns (cols : List Int) (c : Int)
    (hc : c ∈ TOTAL_CODES ∨ c ∈ UNID_CODES) : c ∉ compoundColumns cols := by
  intro hmem
  rw [compoundColumns, List.mem_filter] at hmem
  rcases hmem with ⟨-, hp⟩
  rw [Bool.not_eq_eq_eq_not, Bool.not_true, Bool.or_eq_false_iff] at hp
  rcases hp with ⟨hu, ht⟩
  rcases hc with hc | hc
  · simp at ht
    exact ht hc
  · simp at hu
    exact hu hc

/-! ## Claim theorems -/

/-- C6 (confirmed): in `compounds_above_mdl`, a compound is flagged for a
row exactly when it is an evaluated compound column with a defined MDL
and a present measured value strictly greater than that MDL; hence a
value exactly equal to its MDL is never flagged, a missing (NaN)
measurement is never flagged, and a compound without a defined MDL is
excluded from the check entirely. -/
theorem blanks_flag_iff (cols : List Int) (mdls : Int → Option Rat)
    (row : SampleRow) (c : Int) :
    FlagItem.aqs c ∈ (blankRowResult (compoundColumns cols) mdls row).above ↔
      c ∈ compoundColumns cols ∧
        ∃ m v, mdls c = some m ∧ row.values c = some v ∧ m < v := by
  rw [← mem_aboveCodesForRow]
  unfold blankRowResult
  rcases h : aboveCodesForRow (compoundColumns cols) mdls row with _ | ⟨x, xs⟩
  · simp
  · simp [h]

/-- C4 (confirmed): in `check_qc_recovery`, the expected value of a code
is its canister concentration times the blend ratio, and whenever the
per-row comprehension completes (no zero denominator raised), a compound
with a present measured value and nonzero expected value is in the
failure list exactly when its recovery ratio is strictly above 1.30 or
strictly below 0.70; a recovery of exactly 0.70 or exactly 1.30 is never
flagged. -/
theorem recovery_window_iff (cols : List Int) (conc : Int → Option Rat)
    (blendRatio : Rat) (row : SampleRow) (c : Int) (cv v : Rat) (l : List Int)
    (hconc : conc c = some cv) (hval : row.values c = some v)
    (hcol : c ∈ compoundColumns cols) (_hne : cv * blendRatio ≠ 0)
    (hok : failingCodesForRow (compoundColumns cols) (expectedSeries conc blendRatio)
      row = Except.ok l) :
    expectedSeries conc blendRatio c = some (cv * blendRatio) ∧
    (c ∈ l ↔
      (v / (cv * blendRatio) > RECOVERY_UPPER_BOUND ∨
       v / (cv * blendRatio) < RECOVERY_LOWER_BOUND)) ∧
    ((v / (cv * blendRatio) = RECOVERY_LOWER_BOUND ∨
      v / (cv * blendRatio) = RECOVERY_UPPER_BOUND) → c ∉ l) := by
  have hexp : expectedSeries conc blendRatio c = some (cv * blendRatio) := by
    rw [expectedSeries, hconc, Option.map_some']
  have hiff : c ∈ l ↔
      (v / (cv * blendRatio) > RECOVERY_UPPER_BOUND ∨
       v / (cv * blendRatio) < RECOVERY_LOWER_BOUND) := by
    rw [mem_failingCodesForRow _ _ _ _ _ hok]
    constructor
    · rintro ⟨-, e, w, he, hw, hf⟩
      rw [hexp] at he
      rw [hval] at hw
      cases Option.some.inj he
      cases Option.some.inj hw
      rw [recoveryFails, Bool.or_eq_true, decide_eq_true_eq,
        decide_eq_true_eq] at hf
      exact hf
    · intro hout
      refine ⟨hcol, cv * blendRatio, v, hexp, hval, ?_⟩
      rw [recoveryFails, Bool.or_eq_true, decide_eq_true_eq,
        decide_eq_true_eq]
      exact hout
  refine ⟨hexp, hiff, ?_⟩
  intro hbd hmem
  rcases hiff.mp hmem with hgt | hlt
  · rcases hbd with hb | hb <;> rw [hb] at hgt <;>
      norm_num [RECOVERY_LOWER_BOUND, RECOVERY_UPPER_BOUND] at hgt
  · rcases hbd with hb | hb <;> rw [hb] at hlt <;>
      norm_num [RECOVERY_LOWER_BOUND, RECOVERY_UPPER_BOUND] at hlt

/-- Witness for C4 at the spec scenario: CVS canister Benzene 10, blend
ratio 1, measured 14 (recovery 1.4), giving the failure list [45201]. -/
theorem recovery_window_iff_witness :
    concBenzeneTen 45201 = some 10 ∧ rowCvs14.values 45201 = some 14 ∧
    45201 ∈ compoundColumns [45201] ∧ (10 : Rat) * 1 ≠ 0 ∧
    failingCodesForRow (compoundColumns [45201]) (expectedSeries concBenzeneTen 1)
      rowCvs14 = Except.ok [45201] ∧
    (expectedSeries concBenzeneTen 1 45201 = some (10 * 1) ∧
     ((45201 : Int) ∈ [(45201 : Int)] ↔
       ((14 : Rat) / (10 * 1) > RECOVERY_UPPER_BOUND ∨
        (14 : Rat) / (10 * 1) < RECOVERY_LOWER_BOUND)) ∧
     (((14 : Rat) / (10 * 1) = RECOVERY_LOWER_BOUND ∨
       (14 : Rat) / (10 * 1) = RECOVERY_UPPER_BOUND) →
       (45201 : Int) ∉ [(45201 : Int)])) := by
  have hok : failingCodesForRow (compoundColumns [45201])
      (expectedSeries concBenzeneTen 1) rowCvs14 = Except.ok [45201] := by
    norm_num [failingCodesForRow, rowHitsZeroExpected, recoveryFails,
      compoundColumns, expectedSeries, concBenzeneTen, rowCvs14, UNID_CODES,
      TOTAL_CODES, PLOT_UNID_CODE, BP_UNID_CODE, RECOVERY_UPPER_BOUND,
      RECOVERY_LOWER_BOUND, List.filter, List.any]
  exact ⟨rfl, rfl, by decide, by norm_num, hok,
    recovery_window_iff [45201] concBenzeneTen 1 rowCvs14 45201 10 14 [45201]
      rfl rfl (by decide) (by norm_num) hok⟩

/-- C5 (code bug): a compound whose expected value (canister
concentration times blend ratio) is zero is NOT skipped: the
comprehension reaches the division `row[code] / float(expected[code])`
with a Python-float numerator (`iterrows` boxes the float64 cells of the
mixed-dtype row into built-in Python floats; only the denominator is
`float()`-wrapped) and a zero denominator, so it raises
`ZeroDivisionError` and aborts the whole check instead of skipping the
compound silently.  The spec declares a zero expected denominator an
evaluable-skip ("skipped to avoid division error"), and the docstring
documents only `ValueError`.  This theorem evaluates the embedded code
at such an input. -/
theorem recovery_zero_expected_raises :
    expectedSeries concBenzeneZero 1 45201 = some 0 ∧
    rowCvs5.values 45201 = some 5 ∧
    checkQcRecovery tblCvs5 "c" concBenzeneZero 1 =
      Except.error "ZeroDivisionError: float division by zero" := by
  have hexp : expectedSeries concBenzeneZero 1 45201 = some 0 := by
    norm_num [expectedSeries, concBenzeneZero]
  have hguard : rowHitsZeroExpected (compoundColumns [45201])
      (expectedSeries concBenzeneZero 1) rowCvs5 = true := by
    rw [rowHitsZeroExpected, show compoundColumns [45201] = [45201] from rfl,
      List.any_eq_true]
    refine ⟨45201, by decide, ?_⟩
    rw [hexp]
    rfl
  have hfail : failingCodesForRow (compoundColumns [45201])
      (expectedSeries concBenzeneZero 1) rowCvs5 =
      Except.error "ZeroDivisionError: float division by zero" := by
    rw [failingCodesForRow, if_pos hguard]
  have h1 : qcRowResult (compoundColumns [45201])
      (expectedSeries concBenzeneZero 1) rowCvs5 =
      Except.error "ZeroDivisionError: float division by zero" := by
    rw [qcRowResult, hfail]
  have h2 : qcRowResults (compoundColumns [45201])
      (expectedSeries concBenzeneZero 1) [rowCvs5] =
      Except.error "ZeroDivisionError: float division by zero" := by
    rw [qcRowResults, h1]
  refine ⟨hexp, rfl, ?_⟩
  rw [checkQcRecovery, if_neg (by simp)]
  rw [show tblCvs5.cols = [45201] from rfl]
  rw [show sortRowsByTime (tblCvs5.rows.filter (fun r => r.sampleType == "c")) =
      [rowCvs5] from rfl]
  rw [h2]

/-- Counterexample for C1: the TNMHC total code has a defined threshold
(MDL 50) and a blank value of 100 strictly above it, yet
`compounds_above_mdl` returns the sentinel row: the screens exclude
`TOTAL_CODES` from the evaluated columns, so the total is never
flagged. -/
theorem screens_total_code_cex :
    43102 ∈ TOTAL_CODES ∧ mdlsTotalOnly 43102 = some 50 ∧
    rowBlankTotal.values 43102 = some 100 ∧ (50 : Rat) < 100 ∧
    compoundsAboveMdl tblBlankTotal mdlsTotalOnly =
      Except.ok [⟨0, "blank.cdf", [FlagItem.sentinel]⟩] :=
  ⟨by decide, rfl, rfl, by decide, rfl⟩

/-- C1 (amended): both screens evaluate only the compound columns outside
`UNID_CODES` and `TOTAL_CODES`; a total code (TNMHC or TNMTC) or an
unidentified-peak code is never flagged by `compounds_above_mdl` or
`check_qc_recovery`, whatever its threshold and measured value. -/
theorem screens_exclude_totals (cols : List Int) (mdls expected : Int → Option Rat)
    (row : SampleRow) (c : Int) (hc : c ∈ TOTAL_CODES ∨ c ∈ UNID_CODES) :
    c ∉ aboveCodesForRow (compoundColumns cols) mdls row ∧
    ∀ l, failingCodesForRow (compoundColumns cols) expected row = Except.ok l →
      c ∉ l := by
  have hnc := notMem_compoundColumns cols c hc
  constructor
  · intro hmem
    exact hnc ((mem_aboveCodesForRow _ _ _ _).mp hmem).1
  · intro l hok hmem
    exact hnc ((mem_failingCodesForRow _ _ _ _ _ hok).mp hmem).1

/-- Witness for the amended C1 at the TNMHC code. -/
theorem screens_exclude_totals_witness :
    (43102 ∈ TOTAL_CODES ∨ 43102 ∈ UNID_CODES) ∧
    failingCodesForRow (compoundColumns [43102]) mdlsTotalOnly rowBlankTotal =
      Except.ok [] ∧
    (43102 ∉ aboveCodesForRow (compoundColumns [43102]) mdlsTotalOnly rowBlankTotal ∧
     43102 ∉ ([] : List Int)) :=
  ⟨Or.inl (by decide), rfl,
   (screens_exclude_totals [43102] mdlsTotalOnly mdlsTotalOnly rowBlankTotal 43102
      (Or.inl (by decide))).1,
   (screens_exclude_totals [43102] mdlsTotalOnly mdlsTotalOnly rowBlankTotal 43102
      (Or.inl (by decide))).2 [] rfl⟩

/-- C9 (code bug): on a table with no blank rows, `compounds_above_mdl`
does not return an empty table with the correct columns: the empty result
list yields a DataFrame without a `date_time` column and `set_index`
raises `KeyError`.  This theorem evaluates the embedded code at such an
input. -/
theorem blanks_empty_raises :
    compoundsAboveMdl tblNoBlank (fun _ => none) =
      Except.error "KeyError: none of [date_time] are in the columns" := rfl

/-- C10 (confirmed): every row reported by `check_overrange_values` has a
present numeric measured value strictly greater than the upper
calibration bound, and a compound outside the resolved exclusion set; in
particular a missing (NaN or non-numeric) measurement is never
reported. -/
theorem overrange_rows_sound (t : DataTable) (upper : Rat) (excl : List String)
    (res : List OverrangeRow)
    (h : checkOverrangeValues t upper excl = Except.ok res) :
    ∀ r ∈ res, (∃ x, r.value = some x ∧ x > upper) ∧
      r.compound ∉ excl.filterMap nameToAqs := by
  rw [checkOverrangeValues] at h
  split at h
  · rcases Except.ok.inj h with rfl
    intro r hr
    rw [List.mem_map] at hr
    obtain ⟨p, hp, rfl⟩ := hr
    rw [List.mem_filter] at hp
    obtain ⟨-, hpred⟩ := hp
    rcases hv : p.2.2 with _ | x <;> rw [hv] at hpred
    · exact absurd hpred (by simp)
    · rw [Bool.and_eq_true, decide_eq_true_eq] at hpred
      obtain ⟨hgt, hnc⟩ := hpred
      refine ⟨⟨x, rfl, hgt⟩, ?_⟩
      intro hmem
      rw [Bool.not_eq_eq_eq_not, Bool.not_true] at hnc
      simp only [List.contains_eq_any_beq, List.any_eq_false, beq_iff_eq] at hnc
      exact hnc p.2.1 hmem rfl
  · exact absurd h (by simp)

/-- Witness for C10: Benzene at 50 over the default bound 30 with the
default exclusion names, applied to the single reported row. -/
theorem overrange_rows_sound_witness :
    checkOverrangeValues tblOver 30 defaultExcludeCompounds =
      Except.ok [⟨0, 45201, some 50, "Benzene"⟩] ∧
    ((∃ x, (some (50 : Rat) : Option Rat) = some x ∧ x > 30) ∧
      (45201 : Int) ∉ defaultExcludeCompounds.filterMap nameToAqs) :=
  ⟨rfl,
   overrange_rows_sound tblOver 30 defaultExcludeCompounds
     [⟨0, 45201, some 50, "Benzene"⟩] rfl ⟨0, 45201, some 50, "Benzene"⟩
     (by decide)⟩

/-! ## Lemmas for the qualifier grouping -/

/-- Membership in the accumulated group key list. -/
theorem mem_qualKeys_go (rows : List QualLine) :
    ∀ (acc : List (Int × Int)) (k : Int × Int),
    (k ∈ rows.foldl
        (fun acc r =>
          if (r.startT, r.endT) ∈ acc then acc else acc ++ [(r.startT, r.endT)])
        acc) ↔
      k ∈ acc ∨ k ∈ rows.map (fun r => (r.startT, r.endT)) := by
  induction rows with
  | nil => intro acc k; simp
  | cons r rows ih =>
    intro acc k
    rw [List.foldl_cons, ih]
    have hstep :
        (k ∈ if (r.startT, r.endT) ∈ acc then acc
             else acc ++ [(r.startT, r.endT)]) ↔
          k ∈ acc ∨ k = (r.startT, r.endT) := by
      by_cases hP : (r.startT, r.endT) ∈ acc
      · rw [if_pos hP]
        constructor
        · exact fun h => Or.inl h
        · rintro (h | rfl)
          · exact h
          · exact hP
      · rw [if_neg hP]
        simp
    rw [hstep, List.map_cons, List.mem_cons]
    tauto

/-- The group key list never repeats a key. -/
theorem qualKeys_go_nodup (rows : List QualLine) :
    ∀ (acc : List (Int × Int)), acc.Nodup →
    (rows.foldl
        (fun acc r =>
          if (r.startT, r.endT) ∈ acc then acc else acc ++ [(r.startT, r.endT)])
        acc).Nodup := by
  induction rows with
  | nil => intro acc h; exact h
  | cons r rows ih =>
    intro acc h
    rw [List.foldl_cons]
    apply ih
    by_cases hP : (r.startT, r.endT) ∈ acc
    · rw [if_pos hP]; exact h
    · rw [if_neg hP]
      simp [List.nodup_append, h, hP]

/-- Characterisation of `qualKeys`. -/
theorem mem_qualKeys (rows : List QualLine) (k : Int × Int) :
    k ∈ qualKeys rows ↔ k ∈ rows.map (fun r => (r.startT, r.endT)) := by
  rw [qualKeys, mem_qualKeys_go]
  simp

/-- The group key list has no duplicates. -/
theorem qualKeys_nodup (rows : List QualLine) : (qualKeys rows).Nodup :=
  qualKeys_go_nodup rows [] List.nodup_nil

/-- A duplicate-free list counts a member exactly once. -/
theorem countP_eq_one_of_nodup (l : List (Int × Int)) (k : Int × Int)
    (hnd : l.Nodup) (hk : k ∈ l) :
    l.countP (fun x => decide (x = k)) = 1 := by
  induction l with
  | nil => cases hk
  | cons x l ih =>
    rw [List.nodup_cons] at hnd
    rw [List.countP_cons]
    rcases List.mem_cons.mp hk with h | hk2
    · have hz : l.countP (fun y => decide (y = k)) = 0 :=
        List.countP_eq_zero.mpr (fun a ha hp => by
          rw [decide_eq_true_eq] at hp
          subst hp
          exact hnd.1 (h ▸ ha))
      rw [hz, if_pos (by rw [decide_eq_true_eq]; exact h.symm)]
    · have hxk : ¬(x = k) := fun he => hnd.1 (he ▸ hk2)
      rw [ih hnd.2 hk2, if_neg (by rw [decide_eq_true_eq]; exact hxk)]

/-- C7 (confirmed): `_shift_and_combine` merges all records sharing one
(startdate, starthour, enddate, endhour) tuple into exactly one output
row, whose Parameter(s) field is the comma-joined parameter names of the
merged records in input order, and whose start time is shifted forward by
exactly one hour and end time shifted backward by exactly one hour. -/
theorem shift_and_combine_groups (rows : List QualLine) (k : Int × Int)
    (hk : k ∈ rows.map (fun r => (r.startT, r.endT))) :
    ((shiftAndCombine rows).countP
        (fun r2 => decide ((r2.startT, r2.endT) = (k.1 + 1, k.2 - 1))) = 1) ∧
    (∀ r2 ∈ shiftAndCombine rows, (r2.startT, r2.endT) = (k.1 + 1, k.2 - 1) →
       r2.param = String.intercalate ", "
         ((rows.filter (fun r => decide ((r.startT, r.endT) = k))).map
           (fun r => r.param))) := by
  constructor
  · have h1 : (shiftAndCombine rows).countP
        (fun r2 => decide ((r2.startT, r2.endT) = (k.1 + 1, k.2 - 1))) =
        (qualKeys rows).countP (fun k2 => decide (k2 = k)) := by
      rw [shiftAndCombine, List.countP_map]
      apply List.countP_congr
      intro k2 hk2
      simp only [Function.comp_apply]
      by_cases hkk : k2 = k
      · subst hkk
        simp
      · have hne2 : ¬((k2.1 + 1, k2.2 - 1) = (k.1 + 1, k.2 - 1)) := by
          intro h
          apply hkk
          have hf := congrArg Prod.fst h
          have hs := congrArg Prod.snd h
          dsimp at hf hs
          ext
          · omega
          · omega
        simp [hkk, hne2]
    rw [h1]
    exact countP_eq_one_of_nodup _ _ (qualKeys_nodup rows)
      ((mem_qualKeys rows k).mpr hk)
  · intro r2 hr2 heq
    rw [shiftAndCombine, List.mem_map] at hr2
    obtain ⟨k2, hk2, rfl⟩ := hr2
    have hkk : k2 = k := by
      have h1 := congrArg Prod.fst heq
      have h2 := congrArg Prod.snd heq
      dsimp at h1 h2
      ext
      · omega
      · omega
    rw [hkk]

/-- Witness for C7 on three concrete qualifier lines, two of which share
the window 10..20. -/
theorem shift_and_combine_groups_witness :
    ((10, 20) ∈ [qlA, qlB, qlC].map (fun r => (r.startT, r.endT))) ∧
    (((shiftAndCombine [qlA, qlB, qlC]).countP
        (fun r2 => decide ((r2.startT, r2.endT) = ((10 : Int) + 1, (20 : Int) - 1))) = 1) ∧
     (∀ r2 ∈ shiftAndCombine [qlA, qlB, qlC],
        (r2.startT, r2.endT) = ((10 : Int) + 1, (20 : Int) - 1) →
        r2.param = String.intercalate ", "
          (([qlA, qlB, qlC].filter
              (fun r => decide ((r.startT, r.endT) = ((10 : Int), (20 : Int))))).map
            (fun r => r.param)))) :=
  ⟨by decide, shift_and_combine_groups [qlA, qlB, qlC] (10, 20) (by decide)⟩

/-! ## Lemmas for the ratio battery -/

/-- A true MDL gate yields a present value strictly above three times the
MDL. -/
theorem mdlGate_spec (a : Int → Option Rat) (m : Int → Rat) (c : Int)
    (h : mdlGate a m c = true) : ∃ v, a c = some v ∧ v > 3 * m c := by
  rw [mdlGate] at h
  rcases hv : a c with _ | v
  · rw [hv] at h
    exact absurd h (by simp [oGT])
  · rw [hv] at h
    simp only [oGT, decide_eq_true_eq] at h
    exact ⟨v, rfl, h⟩

/-- Counterexample for C8: a row measuring only Ethylene at 1 (an MDL of
1 everywhere, so no compound in the battery exceeds 3 times its MDL) is
still emitted under the label `alkenes_gt_alkanes`: that condition of the
battery carries no MDL gate at all. -/
theorem ratio_ungated_cex :
    "alkenes_gt_alkanes" ∈ checkRatiosRow rowAlkeneOnly mdlOne ∧
    allBatteryCodes.all (fun c => !(mdlGate rowAlkeneOnly mdlOne c)) = true := by
  constructor
  · norm_num [checkRatiosRow, ratioConditions, rowAlkeneOnly, mdlOne, oGT, mdlGate,
      sumSkipNa, alkaneCodes, alkeneCodes, C_BENZENE, C_TOLUENE, C_ETHANE, C_ETHYLENE,
      C_PROPYLENE, C_PROPANE, C_O_XYLENE, C_M_P_XYLENE, C_2_3_DIMETHYLPENTANE,
      C_2_METHYLHEXANE, C_2_4_DIMETHYLPENTANE, C_METHYLCYCLOPENTANE, C_ISO_BUTANE,
      C_N_BUTANE, C_3_METHYLPENTANE, C_2_METHYLPENTANE, C_N_UNDECANE, C_N_DECANE,
      C_ISO_PENTANE, C_N_PENTANE, C_CYCLOPENTANE, List.filter]
  · norm_num [allBatteryCodes, alkaneCodes, alkeneCodes, C_BENZENE, C_TOLUENE,
      C_O_XYLENE, C_M_P_XYLENE, mdlGate, oGT, rowAlkeneOnly, mdlOne, List.all]

/-- C8 (amended): every condition of the ratio battery except the
alkene-sum comparison flags a row only when the primary compound of the
comparison is present and strictly exceeds 3 times its own MDL; the
`alkenes_gt_alkanes` condition carries no MDL gate. -/
theorem ratio_gate (a : Int → Option Rat) (m : Int → Rat) (lbl : String)
    (c : Int) (hg : gatePrimary lbl = some c)
    (hmem : lbl ∈ checkRatiosRow a m) :
    ∃ v, a c = some v ∧ v > 3 * m c := by
  unfold checkRatiosRow at hmem
  rw [List.mem_map] at hmem
  obtain ⟨p, hp, hlbl⟩ := hmem
  rw [List.mem_filter] at hp
  obtain ⟨hpm, hpt⟩ := hp
  simp only [ratioConditions, List.mem_cons, List.not_mem_nil, or_false] at hpm
  rcases hpm with rfl | rfl | rfl | rfl | rfl | rfl | rfl | rfl | rfl | rfl | rfl | rfl <;>
    subst hlbl <;>
    simp only [Bool.and_eq_true] at hpt
  · cases Option.some.inj (show (some C_BENZENE : Option Int) = some c from hg)
    exact mdlGate_spec a m _ hpt.2
  · cases Option.some.inj (show (some C_BENZENE : Option Int) = some c from hg)
    exact mdlGate_spec a m _ hpt.2
  · cases Option.some.inj (show (some C_ETHYLENE : Option Int) = some c from hg)
    exact mdlGate_spec a m _ hpt.2
  · cases Option.some.inj (show (some C_PROPYLENE : Option Int) = some c from hg)
    exact mdlGate_spec a m _ hpt.2
  · cases Option.some.inj (show (some C_O_XYLENE : Option Int) = some c from hg)
    exact mdlGate_spec a m _ hpt.2
  · cases Option.some.inj
      (show (some C_2_3_DIMETHYLPENTANE : Option Int) = some c from hg)
    exact mdlGate_spec a m _ hpt.2
  · cases Option.some.inj
      (show (some C_2_4_DIMETHYLPENTANE : Option Int) = some c from hg)
    exact mdlGate_spec a m _ hpt.2
  · cases Option.some.inj (show (some C_ISO_BUTANE : Option Int) = some c from hg)
    exact mdlGate_spec a m _ hpt.2
  · cases Option.some.inj
      (show (some C_3_METHYLPENTANE : Option Int) = some c from hg)
    exact mdlGate_spec a m _ hpt.2
  · cases Option.some.inj (show (some C_N_UNDECANE : Option Int) = some c from hg)
    exact mdlGate_spec a m _ hpt.2
  · cases Option.some.inj (show (some C_ISO_PENTANE : Option Int) = some c from hg)
    exact mdlGate_spec a m _ hpt.1.1.2
  · exact Option.noConfusion (show (none : Option Int) = some c from hg)

/-- Witness for the amended C8 at the spec scenario: Benzene 60, Toluene
7, MDL 0.05 everywhere, emitted under `benzene_gt_toluene` with primary
compound Benzene. -/
theorem ratio_gate_witness :
    gatePrimary "benzene_gt_toluene" = some 45201 ∧
    "benzene_gt_toluene" ∈ checkRatiosRow rowBenzeneToluene mdlFive ∧
    (∃ v, rowBenzeneToluene 45201 = some v ∧ v > 3 * mdlFive 45201) := by
  have hmem : "benzene_gt_toluene" ∈ checkRatiosRow rowBenzeneToluene mdlFive := by
    norm_num [checkRatiosRow, ratioConditions, rowBenzeneToluene, mdlFive, oGT,
      mdlGate, sumSkipNa, alkaneCodes, alkeneCodes, C_BENZENE, C_TOLUENE, C_ETHANE,
      C_ETHYLENE, C_PROPYLENE, C_PROPANE, C_O_XYLENE, C_M_P_XYLENE,
      C_2_3_DIMETHYLPENTANE, C_2_METHYLHEXANE, C_2_4_DIMETHYLPENTANE,
      C_METHYLCYCLOPENTANE, C_ISO_BUTANE, C_N_BUTANE, C_3_METHYLPENTANE,
      C_2_METHYLPENTANE, C_N_UNDECANE, C_N_DECANE, C_ISO_PENTANE, C_N_PENTANE,
      C_CYCLOPENTANE, List.filter]
  exact ⟨rfl, hmem, ratio_gate rowBenzeneToluene mdlFive "benzene_gt_toluene" 45201 rfl hmem⟩

/-! ## Lemmas relating the ffill/bfill scan to the spec description -/

/-- The backward-fill accumulator equals the spec description of the
right bound. -/
theorem nextPassTime_eq_spec (hi : Int) :
    ∀ l : List (Int × Bool), nextPassTime hi l = nextPassTimeSpec hi l := by
  intro l
  induction l with
  | nil => rfl
  | cons p rest ih =>
    obtain ⟨t, b⟩ := p
    cases b
    · rfl
    · rw [show nextPassTime hi ((t, true) :: rest) = nextPassTime hi rest from rfl, ih]
      rw [nextPassTimeSpec, nextPassTimeSpec, List.find?_cons]
      rfl

/-- Peeling one observation off the front of the most-recent-pass
lookup: a pass replaces the default, a failure leaves it unchanged. -/
theorem lastPassTimeSpec_cons (lo t : Int) (b : Bool) (xs : List (Int × Bool)) :
    lastPassTimeSpec lo ((t, b) :: xs) =
      if b then lastPassTimeSpec lo xs else lastPassTimeSpec t xs := by
  cases b
  · rw [if_neg (by simp)]
    rw [lastPassTimeSpec, lastPassTimeSpec, List.filter_cons]
    rw [if_pos (by simp)]
    rcases hxs : xs.filter (fun p => !p.2) with _ | ⟨y, ys⟩
    · rw [hxs]
      rfl
    · rw [hxs, List.getLast?_cons_cons]
      rcases hgl : (y :: ys).getLast? with _ | z
      · simp at hgl
      · rfl
  · rw [if_pos rfl]
    rw [lastPassTimeSpec, lastPassTimeSpec, List.filter_cons]
    rw [if_neg (by simp)]

/-- The forward-fill scan with accumulator `last` produces, at every
failing position, exactly the interval described by the spec: most
recent prior pass (default `last`) on the left, nearest following pass
(default `hi`) on the right. -/
theorem rawIntervalsGo_eq_spec (hi : Int) :
    ∀ (l : List (Int × Bool)) (last : Int),
    rawIntervalsGo hi last l = (List.range l.length).filterMap (fun i =>
      match l[i]? with
      | some (_, true) =>
          some (lastPassTimeSpec last (l.take i),
                nextPassTimeSpec hi (l.drop (i + 1)))
      | _ => none) := by
  intro l
  induction l with
  | nil => intro last; rfl
  | cons p rest ih =>
    intro last
    obtain ⟨t, b⟩ := p
    rw [List.length_cons, List.range_succ_eq_map, List.filterMap_cons,
      List.filterMap_map]
    cases b
    · have htail : List.filterMap
          ((fun i => match ((t, false) :: rest)[i]? with
            | some (_, true) =>
                some (lastPassTimeSpec last (((t, false) :: rest).take i),
                      nextPassTimeSpec hi (((t, false) :: rest).drop (i + 1)))
            | _ => none) ∘ Nat.succ) (List.range rest.length) =
          List.filterMap (fun i => match rest[i]? with
            | some (_, true) =>
                some (lastPassTimeSpec t (rest.take i),
                      nextPassTimeSpec hi (rest.drop (i + 1)))
            | _ => none) (List.range rest.length) := by
        apply List.filterMap_congr
        intro i _
        simp only [Function.comp_apply, Nat.succ_eq_add_one,
          List.getElem?_cons_succ, List.take_succ_cons, List.drop_succ_cons,
          lastPassTimeSpec_cons, Bool.false_eq_true, if_false]
      rw [show rawIntervalsGo hi last ((t, false) :: rest) =
          rawIntervalsGo hi t rest from rfl, ih t]
      rw [htail, List.getElem?_cons_zero]
    · have htail : List.filterMap
          ((fun i => match ((t, true) :: rest)[i]? with
            | some (_, true) =>
                some (lastPassTimeSpec last (((t, true) :: rest).take i),
                      nextPassTimeSpec hi (((t, true) :: rest).drop (i + 1)))
            | _ => none) ∘ Nat.succ) (List.range rest.length) =
          List.filterMap (fun i => match rest[i]? with
            | some (_, true) =>
                some (lastPassTimeSpec last (rest.take i),
                      nextPassTimeSpec hi (rest.drop (i + 1)))
            | _ => none) (List.range rest.length) := by
        apply List.filterMap_congr
        intro i _
        simp only [Function.comp_apply, Nat.succ_eq_add_one,
          List.getElem?_cons_succ, List.take_succ_cons, List.drop_succ_cons,
          lastPassTimeSpec_cons, if_true]
      rw [show rawIntervalsGo hi last ((t, true) :: rest) =
          (last, nextPassTime hi rest) :: rawIntervalsGo hi last rest from rfl,
        ih last]
      rw [htail, List.getElem?_cons_zero, nextPassTime_eq_spec]
      rfl

/-- C3 (confirmed): inside `compute_failure_intervals`, before overlap
merging, the raw interval list of the sorted series assigns to every
failing timestamp the left bound equal to the most recent prior passing
timestamp (or the dataset global minimum `lo` when no pass precedes it)
and the right bound equal to the nearest following passing timestamp (or
the dataset global maximum `hi` when no pass follows it). -/
theorem raw_interval_bounds (lo hi : Int) (s : List (Int × Bool)) :
    rawIntervals lo hi (sortObsByTime s) =
      specRawIntervals lo hi (sortObsByTime s) :=
  rawIntervalsGo_eq_spec hi (sortObsByTime s) lo

/-! ## Lemmas for the interval invariants -/

/-- The nearest following pass (default `hi`) is no earlier than a time
below every remaining observation and below `hi`. -/
theorem le_nextPassTime (t hi : Int) (rest : List (Int × Bool))
    (hall : ∀ p ∈ rest, t ≤ p.1) (hhi : t ≤ hi) : t ≤ nextPassTime hi rest := by
  induction rest with
  | nil => exact hhi
  | cons p rest ih =>
    obtain ⟨u, b⟩ := p
    cases b
    · exact hall (u, false) (List.mem_cons_self _ _)
    · exact ih (fun q hq => hall q (List.mem_cons_of_mem _ hq))

/-- Every failing observation of a sorted, bounded series is contained in
its raw interval. -/
theorem rawGo_mem_of_fail (hi : Int) (l : List (Int × Bool)) :
    ∀ last : Int, List.Pairwise obsLE l →
    (∀ p ∈ l, last ≤ p.1) → (∀ p ∈ l, p.1 ≤ hi) →
    ∀ t : Int, (t, true) ∈ l →
    ∃ q ∈ rawIntervalsGo hi last l, q.1 ≤ t ∧ t ≤ q.2 := by
  induction l with
  | nil => intro last _ _ _ t ht; cases ht
  | cons p rest ih =>
    intro last hsort hlast hhi t ht
    obtain ⟨u, b⟩ := p
    rw [List.pairwise_cons] at hsort
    rcases List.mem_cons.mp ht with heq | hmem
    · injection heq with h1 h2
      subst h1
      subst h2
      refine ⟨(last, nextPassTime hi rest), List.mem_cons_self _ _,
        hlast (t, true) (List.mem_cons_self _ _), ?_⟩
      exact le_nextPassTime t hi rest (fun q hq => hsort.1 q hq)
        (hhi (t, true) (List.mem_cons_self _ _))
    · cases b
      · exact ih u hsort.2 (fun q hq => hsort.1 q hq)
          (fun q hq => hhi q (List.mem_cons_of_mem _ hq)) t hmem
      · obtain ⟨q, hq, hc⟩ := ih last hsort.2
          (fun q hq => hlast q (List.mem_cons_of_mem _ hq))
          (fun q hq => hhi q (List.mem_cons_of_mem _ hq)) t hmem
        exact ⟨q, List.mem_cons_of_mem _ hq, hc⟩

/-- Every raw interval of a sorted, bounded series has its left bound at
or before its right bound. -/
theorem rawGo_wf (hi : Int) (l : List (Int × Bool)) :
    ∀ last : Int, List.Pairwise obsLE l →
    (∀ p ∈ l, last ≤ p.1) → (∀ p ∈ l, p.1 ≤ hi) →
    ∀ q ∈ rawIntervalsGo hi last l, q.1 ≤ q.2 := by
  induction l with
  | nil => intro last _ _ _ q hq; cases hq
  | cons p rest ih =>
    intro last hsort hlast hhi q hq
    obtain ⟨u, b⟩ := p
    rw [List.pairwise_cons] at hsort
    cases b
    · exact ih u hsort.2 (fun z hz => hsort.1 z hz)
        (fun z hz => hhi z (List.mem_cons_of_mem _ hz)) q hq
    · rcases List.mem_cons.mp hq with rfl | hq2
      · have h1 : last ≤ u := hlast (u, true) (List.mem_cons_self _ _)
        have h2 : u ≤ nextPassTime hi rest :=
          le_nextPassTime u hi rest (fun z hz => hsort.1 z hz)
            (hhi (u, true) (List.mem_cons_self _ _))
        exact le_trans h1 h2
      · exact ih last hsort.2 (fun z hz => hlast z (List.mem_cons_of_mem _ hz))
          (fun z hz => hhi z (List.mem_cons_of_mem _ hz)) q hq2

/-- The merge sweep emits the open group start as the head of its
output, with an end no smaller than the running end. -/
theorem mergeGo_head (rest : List (Int × Int)) :
    ∀ s e : Int, ∃ e2 tl, mergeGo s e rest = (s, e2) :: tl ∧ e ≤ e2 := by
  induction rest with
  | nil => intro s e; exact ⟨e, [], rfl, le_refl e⟩
  | cons p rest ih =>
    intro s e
    obtain ⟨l, r⟩ := p
    by_cases h : e < l
    · exact ⟨e, mergeGo l r rest, by simp only [mergeGo]; rw [if_pos h], le_refl e⟩
    · obtain ⟨e2, tl, heq, hle⟩ := ih s (max e r)
      exact ⟨e2, tl, by simp only [mergeGo]; rw [if_neg h]; exact heq,
        le_trans (le_max_left e r) hle⟩

/-- Successive merged intervals are strictly separated: each one ends
strictly before the next begins. -/
theorem mergeGo_chain (rest : List (Int × Int)) :
    ∀ s e : Int,
    List.Chain' (fun a b : Int × Int => a.2 < b.1) (mergeGo s e rest) := by
  induction rest with
  | nil => intro s e; exact List.chain'_singleton _
  | cons p rest ih =>
    intro s e
    obtain ⟨l, r⟩ := p
    simp only [mergeGo]
    by_cases h : e < l
    · rw [if_pos h]
      obtain ⟨e2, tl, heq, -⟩ := mergeGo_head rest l r
      rw [heq]
      exact List.chain'_cons.mpr ⟨h, heq ▸ ih l r⟩
    · rw [if_neg h]
      exact ih s (max e r)

/-- Merged intervals are well formed when the inputs are. -/
theorem mergeGo_wf (rest : List (Int × Int)) :
    ∀ s e : Int, s ≤ e → (∀ p ∈ rest, p.1 ≤ p.2) →
    ∀ q ∈ mergeGo s e rest, q.1 ≤ q.2 := by
  induction rest with
  | nil =>
    intro s e hse _ q hq
    rcases List.mem_cons.mp hq with rfl | hq2
    · exact hse
    · cases hq2
  | cons p rest ih =>
    intro s e hse hwf q hq
    obtain ⟨l, r⟩ := p
    rw [show mergeGo s e ((l, r) :: rest) =
        if e < l then (s, e) :: mergeGo l r rest else mergeGo s (max e r) rest
      from rfl] at hq
    by_cases h : e < l
    · rw [if_pos h] at hq
      rcases List.mem_cons.mp hq with rfl | hq2
      · exact hse
      · exact ih l r (hwf (l, r) (List.mem_cons_self _ _))
          (fun z hz => hwf z (List.mem_cons_of_mem _ hz)) q hq2
    · rw [if_neg h] at hq
      exact ih s (max e r) (le_trans hse (le_max_left e r))
        (fun z hz => hwf z (List.mem_cons_of_mem _ hz)) q hq

/-- Every input interval of the merge sweep is contained in some output
interval, provided the inputs are sorted by left bound and bounded below
by the open group start. -/
theorem mergeGo_cover (rest : List (Int × Int)) :
    ∀ s e : Int, List.Pairwise intLE rest → (∀ p ∈ rest, s ≤ p.1) →
    ∀ p ∈ rest, ∃ q ∈ mergeGo s e rest, q.1 ≤ p.1 ∧ p.2 ≤ q.2 := by
  induction rest with
  | nil => intro s e _ _ p hp; cases hp
  | cons x rest ih =>
    intro s e hsort hge p hp
    obtain ⟨l, r⟩ := x
    rw [List.pairwise_cons] at hsort
    simp only [mergeGo]
    by_cases h : e < l
    · rw [if_pos h]
      rcases List.mem_cons.mp hp with rfl | hp2
      · obtain ⟨e2, tl, heq, hle⟩ := mergeGo_head rest l r
        refine ⟨(l, e2), List.mem_cons_of_mem _ (heq ▸ List.mem_cons_self _ _),
          le_refl _, hle⟩
      · obtain ⟨q, hq, hc⟩ := ih l r hsort.2 (fun z hz => hsort.1 z hz) p hp2
        exact ⟨q, List.mem_cons_of_mem _ hq, hc⟩
    · rw [if_neg h]
      rcases List.mem_cons.mp hp with rfl | hp2
      · obtain ⟨e2, tl, heq, hle⟩ := mergeGo_head rest s (max e r)
        refine ⟨(s, e2), heq ▸ List.mem_cons_self _ _,
          hge (l, r) (List.mem_cons_self _ _), le_trans (le_max_right e r) hle⟩
      · exact ih s (max e r) hsort.2
          (fun z hz => hge z (List.mem_cons_of_mem _ hz)) p hp2

/-- Along a separated chain of well-formed intervals, the head ends
strictly before every later interval begins. -/
theorem chain_head_lt (x : Int × Int) (l : List (Int × Int))
    (hc : List.Chain' (fun a b : Int × Int => a.2 < b.1) (x :: l))
    (hwf : ∀ p ∈ l, p.1 ≤ p.2) : ∀ y ∈ l, x.2 < y.1 := by
  induction l generalizing x with
  | nil => intro y hy; cases hy
  | cons z l ih =>
    intro y hy
    rw [List.chain'_cons] at hc
    rcases List.mem_cons.mp hy with rfl | hy2
    · exact hc.1
    · have hz : z.2 < y.1 :=
        ih z hc.2 (fun p hp => hwf p (List.mem_cons_of_mem _ hp)) y hy2
      exact lt_trans (lt_of_lt_of_le hc.1 (hwf z (List.mem_cons_self _ _))) hz

/-- A separated chain of well-formed intervals is pairwise separated. -/
theorem chain_pairwise (l : List (Int × Int))
    (hc : List.Chain' (fun a b : Int × Int => a.2 < b.1) l)
    (hwf : ∀ p ∈ l, p.1 ≤ p.2) :
    List.Pairwise (fun a b : Int × Int => a.2 < b.1) l := by
  induction l with
  | nil => exact List.Pairwise.nil
  | cons x l ih =>
    rw [List.pairwise_cons]
    refine ⟨chain_head_lt x l hc (fun p hp => hwf p (List.mem_cons_of_mem _ hp)), ?_⟩
    exact ih hc.tail (fun p hp => hwf p (List.mem_cons_of_mem _ hp))

/-- A point of some member of a pairwise-separated list of well-formed
intervals is counted exactly once. -/
theorem countP_contains_eq_one (l : List (Int × Int)) (t : Int)
    (hpw : List.Pairwise (fun a b : Int × Int => a.2 < b.1) l)
    (hwf : ∀ p ∈ l, p.1 ≤ p.2)
    (hex : ∃ q ∈ l, q.1 ≤ t ∧ t ≤ q.2) :
    l.countP (fun q => decide (q.1 ≤ t ∧ t ≤ q.2)) = 1 := by
  induction l with
  | nil => obtain ⟨q, hq, -⟩ := hex; cases hq
  | cons x l ih =>
    rw [List.pairwise_cons] at hpw
    rw [List.countP_cons]
    by_cases hx : x.1 ≤ t ∧ t ≤ x.2
    · have hz : l.countP (fun q => decide (q.1 ≤ t ∧ t ≤ q.2)) = 0 :=
        List.countP_eq_zero.mpr (fun q hq hcq => by
          rw [decide_eq_true_eq] at hcq
          have hlt := hpw.1 q hq
          omega)
      rw [hz]
      simp [hx]
    · have hex2 : ∃ q ∈ l, q.1 ≤ t ∧ t ≤ q.2 := by
        obtain ⟨q, hq, hcq⟩ := hex
        rcases List.mem_cons.mp hq with rfl | hq2
        · exact absurd hcq hx
        · exact ⟨q, hq2, hcq⟩
      rw [ih hpw.2 (fun p hp => hwf p (List.mem_cons_of_mem _ hp)) hex2]
      simp [hx]

/-- C2 (confirmed): for every binary fail series whose timestamps lie
within the dataset bounds, the merged intervals returned by
`compute_failure_intervals` are sorted by start time, pairwise
non-overlapping (each ends strictly before the next begins), well
formed, and every failing timestamp lies within exactly one returned
interval; if no timestamp fails the returned interval set is empty. -/
theorem compute_failure_intervals_invariants (lo hi : Int)
    (s : List (Int × Bool)) (hb : ∀ p ∈ s, lo ≤ p.1 ∧ p.1 ≤ hi) :
    List.Pairwise (fun a b : Int × Int => a.1 < b.1)
      (computeFailureIntervals lo hi s) ∧
    List.Pairwise (fun a b : Int × Int => a.2 < b.1)
      (computeFailureIntervals lo hi s) ∧
    (∀ q ∈ computeFailureIntervals lo hi s, q.1 ≤ q.2) ∧
    (∀ t : Int, (t, true) ∈ s →
      (computeFailureIntervals lo hi s).countP
        (fun q => decide (q.1 ≤ t ∧ t ≤ q.2)) = 1) ∧
    ((∀ p ∈ s, p.2 = false) → computeFailureIntervals lo hi s = []) := by
  have hperm : (sortObsByTime s).Perm s := List.perm_insertionSort obsLE s
  have hsorted : List.Pairwise obsLE (sortObsByTime s) :=
    List.sorted_insertionSort obsLE s
  by_cases hany : (sortObsByTime s).any (fun p => p.2) = true
  · have hout : computeFailureIntervals lo hi s =
        mergeIntervals (sortIntervalsByStart (rawIntervals lo hi (sortObsByTime s))) := by
      simp only [computeFailureIntervals]
      rw [if_pos hany]
    have hlast : ∀ p ∈ sortObsByTime s, lo ≤ p.1 :=
      fun p hp => (hb p (hperm.mem_iff.mp hp)).1
    have hhi2 : ∀ p ∈ sortObsByTime s, p.1 ≤ hi :=
      fun p hp => (hb p (hperm.mem_iff.mp hp)).2
    have hrawwf : ∀ q ∈ rawIntervals lo hi (sortObsByTime s), q.1 ≤ q.2 :=
      rawGo_wf hi (sortObsByTime s) lo hsorted hlast hhi2
    have hperm2 : (sortIntervalsByStart (rawIntervals lo hi (sortObsByTime s))).Perm
        (rawIntervals lo hi (sortObsByTime s)) := List.perm_insertionSort intLE _
    have hsorted2 : List.Pairwise intLE
        (sortIntervalsByStart (rawIntervals lo hi (sortObsByTime s))) :=
      List.sorted_insertionSort intLE _
    have hsrtwf : ∀ q ∈ sortIntervalsByStart (rawIntervals lo hi (sortObsByTime s)),
        q.1 ≤ q.2 := fun q hq => hrawwf q (hperm2.mem_iff.mp hq)
    rcases hsrt : sortIntervalsByStart (rawIntervals lo hi (sortObsByTime s)) with
      _ | ⟨⟨xl, xr⟩, rest⟩
    · exfalso
      obtain ⟨p, hp, hp2⟩ := List.any_eq_true.mp hany
      obtain ⟨t, b⟩ := p
      have hb2 : b = true := hp2
      subst hb2
      obtain ⟨q, hq, -⟩ :=
        rawGo_mem_of_fail hi (sortObsByTime s) lo hsorted hlast hhi2 t hp
      have hqm := hperm2.mem_iff.mpr hq
      rw [hsrt] at hqm
      cases hqm
    · rw [hsrt] at hout hperm2 hsorted2 hsrtwf
      have hout2 : computeFailureIntervals lo hi s = mergeGo xl xr rest := hout
      rw [List.pairwise_cons] at hsorted2
      have hge : ∀ p ∈ rest, xl ≤ p.1 := fun p hp => hsorted2.1 p hp
      have hrestwf : ∀ p ∈ rest, p.1 ≤ p.2 :=
        fun p hp => hsrtwf p (List.mem_cons_of_mem _ hp)
      have hxwf : xl ≤ xr := hsrtwf (xl, xr) (List.mem_cons_self _ _)
      have hchain := mergeGo_chain rest xl xr
      have hwfout := mergeGo_wf rest xl xr hxwf hrestwf
      have hpw := chain_pairwise _ hchain hwfout
      rw [hout2]
      refine ⟨?_, hpw, hwfout, ?_, ?_⟩
      · exact List.Pairwise.imp_of_mem
          (fun {a} {b} ha _ hR => lt_of_le_of_lt (hwfout a ha) hR) hpw
      · intro t ht
        have ht2 : (t, true) ∈ sortObsByTime s := hperm.mem_iff.mpr ht
        obtain ⟨q, hqraw, hc1, hc2⟩ :=
          rawGo_mem_of_fail hi (sortObsByTime s) lo hsorted hlast hhi2 t ht2
        have hqsrt := hperm2.mem_iff.mpr hqraw
        have hex : ∃ q2 ∈ mergeGo xl xr rest, q2.1 ≤ t ∧ t ≤ q2.2 := by
          rcases List.mem_cons.mp hqsrt with rfl | hq2
          · obtain ⟨e2, tl, heq, hle⟩ := mergeGo_head rest xl xr
            exact ⟨(xl, e2), heq ▸ List.mem_cons_self _ _, hc1, le_trans hc2 hle⟩
          · obtain ⟨q2, hq2m, hcov1, hcov2⟩ :=
              mergeGo_cover rest xl xr hsorted2.2 hge q hq2
            exact ⟨q2, hq2m, le_trans hcov1 hc1, le_trans hc2 hcov2⟩
        exact countP_contains_eq_one _ t hpw hwfout hex
      · intro hnofail
        exfalso
        obtain ⟨p, hp, hp2⟩ := List.any_eq_true.mp hany
        rw [hnofail p (hperm.mem_iff.mp hp)] at hp2
        cases hp2
  · have hout : computeFailureIntervals lo hi s = [] := by
      simp only [computeFailureIntervals]
      rw [if_neg hany]
    rw [hout]
    refine ⟨List.Pairwise.nil, List.Pairwise.nil,
      fun q hq => absurd hq (List.not_mem_nil q), ?_, fun _ => rfl⟩
    intro t ht
    exfalso
    apply hany
    rw [List.any_eq_true]
    exact ⟨(t, true), hperm.mem_iff.mpr ht, rfl⟩

/-- Witness for C2 on the spec scenario series (passes at 1, 5, 9, 11;
failures at 2, 3, 4, 10) with dataset bounds 0 and 12. -/
theorem compute_failure_intervals_invariants_witness :
    (∀ p ∈ seriesScenario, (0 : Int) ≤ p.1 ∧ p.1 ≤ 12) ∧
    (List.Pairwise (fun a b : Int × Int => a.1 < b.1)
       (computeFailureIntervals 0 12 seriesScenario) ∧
     List.Pairwise (fun a b : Int × Int => a.2 < b.1)
       (computeFailureIntervals 0 12 seriesScenario) ∧
     (∀ q ∈ computeFailureIntervals 0 12 seriesScenario, q.1 ≤ q.2) ∧
     (∀ t : Int, (t, true) ∈ seriesScenario →
       (computeFailureIntervals 0 12 seriesScenario).countP
         (fun q => decide (q.1 ≤ t ∧ t ≤ q.2)) = 1) ∧
     ((∀ p ∈ seriesScenario, p.2 = false) →
       computeFailureIntervals 0 12 seriesScenario = [])) :=
  ⟨by decide, compute_failure_intervals_invariants 0 12 seriesScenario (by decide)⟩

end AutogcValidation
